import Mathlib

/-!
Shallow embedding of the YC directory scraper (src/yc_scraper.py) and proofs of
the specified properties.  Strings are modelled by Lean `String` (a wrapper
around `List Char`); the Python string primitives used by the source
(`strip`, `split`, `in`, `startswith`-via-CSS-selector, `rstrip`) are embedded
as executable functions on the underlying character lists.
-/

/-- Does `hay` begin with `needle`?  (List-level startswith.) -/
def startsL (needle hay : List Char) : Bool :=
  match needle, hay with
  | [], _ => true
  | _ :: _, [] => false
  | a :: as, b :: bs => a == b && startsL as bs

/-- Does `needle` occur as a contiguous substring of `hay`?
Embeds the Python membership test `needle in hay` on strings. -/
def subL (needle : List Char) : List Char → Bool
  | [] => needle.isEmpty
  | c :: rest => startsL needle (c :: rest) || subL needle rest

/-- Python `s.startswith(p)` (also the semantics of the CSS attribute
selector `a[href^=p]` used by the discovery loop). -/
def pyStartsWith (s p : String) : Bool := startsL p.data s.data

/-- Python `needle in hay` for strings (substring containment). -/
def pyIn (needle hay : String) : Bool := subL needle.data hay.data

/-- Strip leading and trailing whitespace from a character list. -/
def stripL (l : List Char) : List Char :=
  ((l.dropWhile Char.isWhitespace).reverse.dropWhile Char.isWhitespace).reverse

/-- Python `s.strip()`. -/
def pyStrip (s : String) : String := ⟨stripL s.data⟩

/-- Whitespace-split of a character list, dropping empty pieces: the accumulator
holds the (reversed) current word. -/
def wordsAux : List Char → List Char → List (List Char)
  | [], cur => if cur.isEmpty then [] else [cur.reverse]
  | c :: rest, cur =>
    if c.isWhitespace then
      if cur.isEmpty then wordsAux rest [] else cur.reverse :: wordsAux rest []
    else wordsAux rest (c :: cur)

/-- Python `s.split()` with no separator: split on whitespace runs, no empty
tokens. -/
def pyWords (s : String) : List String := (wordsAux s.data []).map (fun l => ⟨l⟩)

/-- `l.takeWhile (not a question mark)`: embeds Python `s.split('?')[0]`. -/
def takeUntilQL (l : List Char) : List Char := l.takeWhile (fun c => c != '?')

/-- Drop every trailing slash: embeds Python `s.rstrip('/')`. -/
def rstripSlashL (l : List Char) : List Char :=
  (l.reverse.dropWhile (fun c => c == '/')).reverse

/-- The LinkedIn URL normalization of yc_scraper.py line 92:
`link.split('?')[0].rstrip('/')`. -/
def cleanLink (s : String) : String := ⟨rstripSlashL (takeUntilQL s.data)⟩

-- Basic lemmas about the helpers.

lemma startsL_append (b xs ys : List Char) (h : startsL xs ys = true) :
    startsL (b ++ xs) (b ++ ys) = true := by
  induction b with
  | nil => simpa using h
  | cons c rest ih => simpa [startsL] using ih

lemma mem_rstripSlashL {c : Char} {l : List Char} (h : c ∈ rstripSlashL l) :
    c ∈ l := by
  unfold rstripSlashL at h
  rw [List.mem_reverse] at h
  have h2 := (List.dropWhile_sublist (fun c => c == '/') (l := l.reverse)).mem h
  rwa [List.mem_reverse] at h2

lemma takeWhile_all {p : Char → Bool} {l : List Char}
    (h : ∀ c ∈ l, p c = true) : l.takeWhile p = l := by
  induction l with
  | nil => rfl
  | cons a rest ih =>
    have ha : p a = true := h a (List.mem_cons_self a rest)
    have ih' := ih (fun c hc => h c (List.mem_cons_of_mem a hc))
    simp [List.takeWhile_cons, ha, ih']

lemma dropWhile_dropWhile (p : Char → Bool) (l : List Char) :
    (l.dropWhile p).dropWhile p = l.dropWhile p := by
  induction l with
  | nil => rfl
  | cons a rest ih =>
    by_cases ha : p a = true
    · rw [List.dropWhile_cons_of_pos ha]; exact ih
    · have ha' : p a = false := by simpa using ha
      rw [List.dropWhile_cons_of_neg (by simp [ha']),
        List.dropWhile_cons_of_neg (by simp [ha'])]

lemma rstripSlashL_idem (l : List Char) :
    rstripSlashL (rstripSlashL l) = rstripSlashL l := by
  unfold rstripSlashL
  rw [List.reverse_reverse, dropWhile_dropWhile]

lemma takeUntilQL_of_clean (l : List Char) :
    takeUntilQL (rstripSlashL (takeUntilQL l)) = rstripSlashL (takeUntilQL l) := by
  apply takeWhile_all
  intro c hc
  have hc2 : c ∈ takeUntilQL l := mem_rstripSlashL hc
  unfold takeUntilQL at hc2
  exact List.mem_takeWhile_imp (p := fun c => c != '?') hc2

/-- C8 helper: list-level idempotence of the normalization. -/
lemma cleanL_idem (l : List Char) :
    rstripSlashL (takeUntilQL (rstripSlashL (takeUntilQL l)))
      = rstripSlashL (takeUntilQL l) := by
  rw [takeUntilQL_of_clean, rstripSlashL_idem]

/-- C8: normalizing a LinkedIn URL (strip from the first question mark onward,
then strip trailing slashes) twice yields the same string as normalizing
once. -/
theorem cleanLink_idempotent (s : String) : cleanLink (cleanLink s) = cleanLink s := by
  unfold cleanLink
  exact congrArg String.mk (cleanL_idem s.data)

example : cleanLink "https://linkedin.com/in/jane?miniProfile=x" = "https://linkedin.com/in/jane" := by decide
example : cleanLink "https://linkedin.com/in/jane///" = "https://linkedin.com/in/jane" := by decide

/-!
## Profile extraction and the per-URL fetch engine (yc_scraper.py lines 44-124)

A loaded profile document is modelled by the query results the extraction code
reads from it.  A fetch-and-extract attempt either yields such a document or
fails (navigation timeout, unresolvable primary heading, any extraction-time
fault): a failed attempt is `none`.
-/

/-- The query results `scrape_company_details` reads from a loaded profile
document: the first h1 text, the first visible batch link text (none when not
visible), the first visible description text (none when not visible), the
hrefs of all LinkedIn anchors, and the inner texts of the `div.font-bold`
and `h3` elements scanned by the founder-name heuristic. -/
structure ProfileDoc where
  h1Text : String
  batchLink : Option String
  descText : Option String
  linkedinHrefs : List String
  boldTexts : List String
  h3Texts : List String
deriving DecidableEq, Repr

/-- A record is the Python dict returned per URL: an ordered key-value list. -/
abbrev Rec := List (String × String)

/-- The fixed UI-label blacklist of yc_scraper.py line 104. -/
def blacklist : List String :=
  ["Founders", "Jobs", "Blog", "Team", "Company", "Launch", "News"]

/-- The founder-name filter of yc_scraper.py lines 103-105, applied to the
already-stripped candidate text: word count in 1..3, and no blacklist word
occurs anywhere in the text (Python `word in text` is substring containment). -/
def nameFilterAccepts (text : String) : Bool :=
  (decide (0 < (pyWords text).length) && decide ((pyWords text).length ≤ 3)) &&
  !(blacklist.any (fun w => pyIn w text))

/-- The filter as the spec states it: 1..3 tokens and no token exactly equal
to a blacklist word.  Declared only to compare against `nameFilterAccepts`. -/
def nameFilterAcceptsSpec (text : String) : Bool :=
  (decide (0 < (pyWords text).length) && decide ((pyWords text).length ≤ 3)) &&
  !((pyWords text).any (fun t => blacklist.contains t))

/-- Founder-name collection (yc_scraper.py lines 97-107): scan the candidate
texts of both selectors in order, strip, filter, deduplicate keeping
first-seen order. -/
def founderNamesOf (cands : List String) : List String :=
  cands.foldl (fun acc raw =>
    let text := pyStrip raw
    if nameFilterAccepts text && !(acc.contains text) then acc ++ [text] else acc) []

/-- Founder-LinkedIn collection (yc_scraper.py lines 87-94): skip falsy (empty)
hrefs, normalize with `cleanLink`, deduplicate keeping first-seen order. -/
def founderLinksOf (hrefs : List String) : List String :=
  hrefs.foldl (fun acc link =>
    if link != "" then
      (if !(acc.contains (cleanLink link)) then acc ++ [cleanLink link] else acc)
    else acc) []

/-- The success dict of yc_scraper.py lines 112-118.  A missing batch link or
description element leaves the sentinel "N/A" in place. -/
def successDict (d : ProfileDoc) : Rec :=
  [("Company Name", pyStrip d.h1Text),
   ("Batch", pyStrip (d.batchLink.getD "N/A")),
   ("Short Description", pyStrip (d.descText.getD "N/A")),
   ("Founder Name(s)", String.intercalate ", " (founderNamesOf (d.boldTexts ++ d.h3Texts))),
   ("Founder LinkedIn URL(s)", String.intercalate ", " (founderLinksOf d.linkedinHrefs))]

/-- The failure dict of yc_scraper.py line 123. -/
def failureDict (url : String) : Rec := [("Company Name", "Error"), ("URL", url)]

/-- Observable outcome of one call to `scrape_company_details`: the returned
record, how many attempts were made, and the backoff sleeps (in seconds)
taken between attempts. -/
structure ScrapeRun where
  record : Rec
  attemptsMade : Nat
  backoffs : List Nat
deriving DecidableEq, Repr

/-- yc_scraper.py lines 44-124: the per-URL retry loop `for attempt in
range(2)`.  `a0`/`a1` are the outcomes of the first and second
fetch-and-extract attempt.  A first-attempt failure sleeps 3 seconds and
retries once; a second failure returns the error placeholder dict.  The
function always returns a record: no exception escapes to the orchestrator. -/
def scrape_company_details (url : String) (a0 a1 : Option ProfileDoc) : ScrapeRun :=
  match a0 with
  | some d => ⟨successDict d, 1, []⟩
  | none =>
    match a1 with
    | some d => ⟨successDict d, 2, [3]⟩
    | none => ⟨failureDict url, 2, [3]⟩

/-- C2: when both fetch-and-extract attempts fail, `scrape_company_details`
makes exactly 2 attempts with the fixed 3-second backoff between them and
returns exactly one failure record carrying Company Name "Error" and the
originating URL.  The function is total (returns a record, never propagates
the fault). -/
theorem scrape_double_failure (url : String) :
    (scrape_company_details url none none).record = failureDict url ∧
    (scrape_company_details url none none).record =
      [("Company Name", "Error"), ("URL", url)] ∧
    (scrape_company_details url none none).attemptsMade = 2 ∧
    (scrape_company_details url none none).backoffs = [3] :=
  ⟨rfl, rfl, rfl, rfl⟩

/-- C4 counterexample: the code filter rejects "Launchpad" because the
blacklist word "Launch" occurs as a substring, although no whitespace token
of "Launchpad" equals a blacklist word — so the token-exact-match reading of
the claim is false on the code. -/
theorem nameFilter_substring_not_token :
    nameFilterAccepts "Launchpad" = false ∧
    nameFilterAcceptsSpec "Launchpad" = true := by decide

/-- C4 (amended): the filter accepts a stripped candidate text iff it has 1-3
whitespace-split words and no blacklist word occurs as a substring of the
text; in particular "Jane Doe" is accepted, "Founders" is rejected and
"A B C D" is rejected. -/
theorem nameFilter_characterization :
    (∀ text : String, nameFilterAccepts text = true ↔
      (0 < (pyWords text).length ∧ (pyWords text).length ≤ 3 ∧
        ∀ w ∈ blacklist, pyIn w text = false)) ∧
    nameFilterAccepts (pyStrip "Jane Doe") = true ∧
    nameFilterAccepts (pyStrip "Founders") = false ∧
    nameFilterAccepts (pyStrip "A B C D") = false := by
  refine ⟨fun text => ?_, by decide, by decide, by decide⟩
  unfold nameFilterAccepts
  simp [List.any_eq_true, and_assoc]

/-- C4 witness: the characterization applied at the concrete inputs
"Jane Doe" (accepted) and "Founders" (rejected). -/
theorem nameFilter_characterization_witness :
    nameFilterAccepts "Jane Doe" = true ∧ nameFilterAccepts "Founders" = false :=
  ⟨(nameFilter_characterization.1 "Jane Doe").2 (by decide),
   nameFilter_characterization.2.2.1⟩

/-- A concrete profile document with no visible batch link and no visible
description element. -/
def docNoOptional : ProfileDoc :=
  ⟨"Acme", none, none, [], [], []⟩

/-- C7 counterexample: when the batch link (resp. description element) is not
visible, the extracted record carries the sentinel "N/A", not the string
"not available" named by the claim. -/
theorem sentinel_is_NA_not_notAvailable :
    List.lookup "Batch" (successDict docNoOptional) = some "N/A" ∧
    List.lookup "Batch" (successDict docNoOptional) ≠ some "not available" ∧
    List.lookup "Short Description" (successDict docNoOptional) = some "N/A" ∧
    List.lookup "Short Description" (successDict docNoOptional) ≠ some "not available" := by
  decide

/-- C7 (amended): for every profile document with no visible batch link
(resp. no visible description element), the extracted Batch
(resp. Short Description) field equals the fixed sentinel "N/A", and the
other fields are still extracted. -/
theorem sentinel_defaults (d : ProfileDoc) :
    (d.batchLink = none → List.lookup "Batch" (successDict d) = some "N/A") ∧
    (d.descText = none → List.lookup "Short Description" (successDict d) = some "N/A") ∧
    List.lookup "Company Name" (successDict d) = some (pyStrip d.h1Text) ∧
    List.lookup "Founder Name(s)" (successDict d) =
      some (String.intercalate ", " (founderNamesOf (d.boldTexts ++ d.h3Texts))) ∧
    List.lookup "Founder LinkedIn URL(s)" (successDict d) =
      some (String.intercalate ", " (founderLinksOf d.linkedinHrefs)) := by
  refine ⟨fun h => ?_, fun h => ?_, rfl, rfl, rfl⟩
  · have e : List.lookup "Batch" (successDict d)
        = some (pyStrip (d.batchLink.getD "N/A")) := rfl
    rw [e, h]; decide
  · have e : List.lookup "Short Description" (successDict d)
        = some (pyStrip (d.descText.getD "N/A")) := rfl
    rw [e, h]; decide

/-- C7 witness: the amended statement applied at the concrete document
`docNoOptional`, discharging both absence hypotheses. -/
theorem sentinel_defaults_witness :
    List.lookup "Batch" (successDict docNoOptional) = some "N/A" ∧
    List.lookup "Short Description" (successDict docNoOptional) = some "N/A" :=
  ⟨(sentinel_defaults docNoOptional).1 rfl,
   (sentinel_defaults docNoOptional).2.1 rfl⟩

/-- C10: a success record carries exactly the five data fields and no URL
field; a failure record carries only Company Name = "Error" and the URL
field, so only failed profiles record their originating URL. -/
theorem record_field_shapes (d : ProfileDoc) (url : String) :
    (scrape_company_details url (some d) none).record = successDict d ∧
    (scrape_company_details url none none).record = failureDict url ∧
    (successDict d).map Prod.fst =
      ["Company Name", "Batch", "Short Description",
       "Founder Name(s)", "Founder LinkedIn URL(s)"] ∧
    "URL" ∉ (successDict d).map Prod.fst ∧
    (failureDict url).map Prod.fst = ["Company Name", "URL"] ∧
    List.lookup "Company Name" (failureDict url) = some "Error" ∧
    List.lookup "URL" (failureDict url) = some url := by
  refine ⟨rfl, rfl, rfl, ?_, rfl, rfl, rfl⟩
  have e : (successDict d).map Prod.fst =
      ["Company Name", "Batch", "Short Description",
       "Founder Name(s)", "Founder LinkedIn URL(s)"] := rfl
  rw [e]; decide

/-!
## Link discovery (yc_scraper.py lines 13-42)

The page states over the run are modelled by `views`: the anchor hrefs
matched by the selector query at scroll step `i`.  The CSS selector
`a[href^="/companies/"]` only returns anchors whose href starts with
"/companies/", embedded as a filter; the loop body re-checks the Python
condition `if href and "/companies/" in href` before inserting.
-/

def companiesBase : String := "https://www.ycombinator.com"

def profileSlug : String := "/companies/"

/-- Insertion into the Python `set`, modelled as an ordered duplicate-free
list (the claims proved about the result are order-independent). -/
def insertURL (acc : List String) (u : String) : List String :=
  if u ∈ acc then acc else acc ++ [u]

/-- One pass of yc_scraper.py lines 26-31 over the currently rendered
anchors. -/
def collectLinks (acc : List String) (hrefs : List String) : List String :=
  (hrefs.filter (fun h => pyStartsWith h profileSlug)).foldl
    (fun a h =>
      if h != "" && pyIn profileSlug h then insertURL a (companiesBase ++ h) else a)
    acc

/-- The scroll loop of yc_scraper.py lines 24-39: collect, stop when the
target is reached, otherwise scroll and retry, up to 150 scroll attempts. -/
def scrollAux (views : Nat → List String) (target : Nat) :
    Nat → Nat → List String → List String
  | _, 0, acc => acc
  | attempts, fuel + 1, acc =>
    if acc.length < target then
      let acc2 := collectLinks acc (views attempts)
      if target ≤ acc2.length then acc2
      else scrollAux views target (attempts + 1) fuel acc2
    else acc

/-- yc_scraper.py lines 13-42: run the scroll loop from an empty set and
return `list(company_links)[:target_count]`. -/
def scroll_and_extract_links (views : Nat → List String) (target : Nat) : List String :=
  (scrollAux views target 0 150 []).take target

/-- Absolute profile URL shape: starts with the profile-path prefix. -/
def goodURL (u : String) : Bool := pyStartsWith u (companiesBase ++ profileSlug)

lemma string_data_append (a b : String) : (a ++ b).data = a.data ++ b.data := rfl

lemma insertURL_nodup {acc : List String} {u : String} (h : acc.Nodup) :
    (insertURL acc u).Nodup := by
  unfold insertURL
  by_cases hm : u ∈ acc
  · simpa [hm] using h
  · simp [hm, List.nodup_append, h]

lemma insertURL_good {acc : List String} {u : String}
    (hacc : ∀ v ∈ acc, goodURL v = true) (hu : goodURL u = true) :
    ∀ v ∈ insertURL acc u, goodURL v = true := by
  intro v hv
  unfold insertURL at hv
  by_cases hm : u ∈ acc
  · exact hacc v (by simpa [hm] using hv)
  · rw [if_neg hm] at hv
    rcases List.mem_append.mp hv with hv | hv
    · exact hacc v hv
    · rw [List.mem_singleton] at hv; subst hv; exact hu

lemma goodURL_of_slug {h : String} (hs : pyStartsWith h profileSlug = true) :
    goodURL (companiesBase ++ h) = true := by
  unfold pyStartsWith at hs
  unfold goodURL pyStartsWith
  rw [string_data_append, string_data_append]
  exact startsL_append companiesBase.data _ _ hs

lemma collect_fold_inv (L : List String) :
    ∀ acc : List String, (∀ h ∈ L, pyStartsWith h profileSlug = true) →
    acc.Nodup → (∀ v ∈ acc, goodURL v = true) →
    (L.foldl (fun a h =>
        if h != "" && pyIn profileSlug h then insertURL a (companiesBase ++ h) else a)
      acc).Nodup ∧
    ∀ v ∈ L.foldl (fun a h =>
        if h != "" && pyIn profileSlug h then insertURL a (companiesBase ++ h) else a)
      acc, goodURL v = true := by
  induction L with
  | nil => intro acc _ h1 h2; exact ⟨h1, h2⟩
  | cons h0 rest ih =>
    intro acc hL h1 h2
    simp only [List.foldl_cons]
    by_cases hc : (h0 != "" && pyIn profileSlug h0) = true
    · rw [if_pos hc]
      refine ih _ (fun h hh => hL h (List.mem_cons_of_mem h0 hh))
        (insertURL_nodup h1)
        (insertURL_good h2 (goodURL_of_slug (hL h0 (List.mem_cons_self h0 rest))))
    · rw [if_neg hc]
      exact ih _ (fun h hh => hL h (List.mem_cons_of_mem h0 hh)) h1 h2

lemma collectLinks_inv {acc : List String} (h1 : acc.Nodup)
    (h2 : ∀ v ∈ acc, goodURL v = true) (hrefs : List String) :
    (collectLinks acc hrefs).Nodup ∧ ∀ v ∈ collectLinks acc hrefs, goodURL v = true := by
  unfold collectLinks
  refine collect_fold_inv _ acc (fun h hh => ?_) h1 h2
  exact (List.mem_filter.mp hh).2

lemma scrollAux_inv (views : Nat → List String) (target : Nat) :
    ∀ (fuel attempts : Nat) (acc : List String), acc.Nodup →
    (∀ v ∈ acc, goodURL v = true) →
    (scrollAux views target attempts fuel acc).Nodup ∧
    ∀ v ∈ scrollAux views target attempts fuel acc, goodURL v = true := by
  intro fuel
  induction fuel with
  | zero => intro attempts acc h1 h2; exact ⟨h1, h2⟩
  | succ f ih =>
    intro attempts acc h1 h2
    rw [scrollAux]
    by_cases hlt : acc.length < target
    · rw [if_pos hlt]
      have hcoll := collectLinks_inv h1 h2 (views attempts)
      by_cases hge : target ≤ (collectLinks acc (views attempts)).length
      · simpa [hge] using hcoll
      · simpa [hge] using ih (attempts + 1) _ hcoll.1 hcoll.2
    · rw [if_neg hlt]
      exact ⟨h1, h2⟩

/-- C3: every discovery run returns at most `target` pairwise-distinct URLs,
each starting with the absolute profile-path prefix
"https://www.ycombinator.com/companies/". -/
theorem scroll_links_spec (views : Nat → List String) (target : Nat) :
    (scroll_and_extract_links views target).length ≤ target ∧
    (scroll_and_extract_links views target).Nodup ∧
    ∀ u ∈ scroll_and_extract_links views target,
      pyStartsWith u "https://www.ycombinator.com/companies/" = true := by
  have hinv := scrollAux_inv views target 150 0 [] List.nodup_nil (by intro v hv; cases hv)
  unfold scroll_and_extract_links
  refine ⟨List.length_take_le target _, hinv.1.sublist (List.take_sublist _ _), ?_⟩
  intro u hu
  have hm : u ∈ scrollAux views target 0 150 [] := (List.take_sublist _ _).mem hu
  have := hinv.2 u hm
  unfold goodURL at this
  exact this

/-- C3 witness: the guarantees instantiated on a concrete run that discovers
one profile link. -/
theorem scroll_links_spec_witness :
    "https://www.ycombinator.com/companies/acme" ∈
      scroll_and_extract_links (fun _ => ["/companies/acme"]) 1 ∧
    pyStartsWith "https://www.ycombinator.com/companies/acme"
      "https://www.ycombinator.com/companies/" = true :=
  ⟨by decide,
   (scroll_links_spec (fun _ => ["/companies/acme"]) 1).2.2
     "https://www.ycombinator.com/companies/acme" (by decide)⟩

/-!
## Batched fetching and checkpointing (yc_scraper.py lines 126-169)

The batch loop `for i in range(0, len(urls), BATCH_SIZE)` with a positive
batch size is embedded with batch size `b + 1` (Python raises on a zero
step, so the step is inherently positive; the source uses 50).  `busy i`
tells whether the checkpoint destination is transiently unwritable
(PermissionError) at batch `i`; such a write is skipped (recorded with
`ok := false`) and the loop continues.
-/

/-- The fixed interim checkpoint destination (yc_scraper.py line 158). -/
def progressPath : String := "yc_scraping_progress.csv"

/-- One attempted checkpoint write: destination, serialized snapshot of the
full accumulated result set, and whether the write succeeded. -/
structure CkWrite where
  dest : String
  snapshot : List Rec
  ok : Bool
deriving DecidableEq, Repr

/-- Ceiling division on naturals. -/
def ceilDiv (n B : Nat) : Nat := (n + B - 1) / B

/-- yc_scraper.py lines 147-161: process the URL list in batches of `b + 1`,
appending each batch's records to the accumulated results and attempting one
checkpoint write of the full accumulation after every batch.  Returns the
final result set and the attempted checkpoint writes. -/
def fetchBatches (scr : String → Rec) (busy : Nat → Bool) (b : Nat) :
    Nat → List Rec → List String → List Rec × List CkWrite
  | _, acc, [] => (acc, [])
  | idx, acc, u :: rest =>
    let acc2 := acc ++ ((u :: rest).take (b + 1)).map scr
    let r := fetchBatches scr busy b (idx + 1) acc2 ((u :: rest).drop (b + 1))
    (r.1, ⟨progressPath, acc2, !busy idx⟩ :: r.2)
termination_by _ _ l => l.length
decreasing_by simp [List.length_drop]; omega

lemma ceilDiv_succ (n b : Nat) :
    ceilDiv (n + 1) (b + 1) = ceilDiv (n - b) (b + 1) + 1 := by
  unfold ceilDiv
  have h1 : n + 1 + (b + 1) - 1 = n + (b + 1) := by omega
  rw [h1, Nat.add_div_right _ (Nat.succ_pos b)]
  rcases le_or_lt b n with h | h
  · have h2 : n - b + (b + 1) - 1 = n := by omega
    rw [h2]
  · have h2 : n - b = 0 := by omega
    have h3 : n / (b + 1) = 0 := Nat.div_eq_of_lt (by omega)
    have h4 : (0 + (b + 1) - 1) / (b + 1) = 0 := Nat.div_eq_of_lt (by omega)
    rw [h2, h4, h3]

/-- Closed form of the batch loop: the final result set is the image of the
whole URL list, and the `i`-th checkpoint write carries the cumulative
results of the first `i + 1` batches. -/
lemma fetchBatches_spec (scr : String → Rec) (busy : Nat → Bool) (b : Nat) :
    ∀ (n : Nat) (l : List String), l.length = n → ∀ (idx : Nat) (acc : List Rec),
    fetchBatches scr busy b idx acc l =
      (acc ++ l.map scr,
       (List.range (ceilDiv l.length (b + 1))).map
         (fun i => ⟨progressPath, acc ++ (l.take ((i + 1) * (b + 1))).map scr,
           !busy (idx + i)⟩)) := by
  intro n
  induction n using Nat.strong_induction_on with
  | _ n ih =>
    intro l hl idx acc
    rcases l with _ | ⟨u, rest⟩
    · simp only [fetchBatches, List.map_nil, List.append_nil, List.length_nil]
      have hz : ceilDiv 0 (b + 1) = 0 := by
        unfold ceilDiv
        exact Nat.div_eq_of_lt (by omega)
      rw [hz]
      simp
    · have hlt : ((u :: rest).drop (b + 1)).length < n := by
        rw [← hl]
        simp only [List.length_drop, List.length_cons]
        omega
      have hrec := ih _ hlt _ rfl (idx + 1)
        (acc ++ ((u :: rest).take (b + 1)).map scr)
      simp only [fetchBatches, hrec]
      rw [Prod.mk.injEq]
      constructor
      · rw [List.append_assoc, ← List.map_append, List.take_append_drop]
      · have hlen : ((u :: rest).drop (b + 1)).length = rest.length - b := by
          simp only [List.length_drop, List.length_cons]
          omega
        have hlen2 : (u :: rest).length = rest.length + 1 := by
          simp [List.length_cons]
        rw [hlen, hlen2, ceilDiv_succ, List.range_succ_eq_map, List.map_cons,
          List.map_map]
        congr 1
        · simp
        · apply List.map_congr_left
          intro i hi
          simp only [Function.comp_apply]
          rw [CkWrite.mk.injEq]
          refine ⟨rfl, ?_, ?_⟩
          · have htake : List.take (b + 1) (u :: rest) ++
                List.take ((i + 1) * (b + 1)) (List.drop (b + 1) (u :: rest)) =
                List.take ((i + 1 + 1) * (b + 1)) (u :: rest) := by
              have harith : (i + 1 + 1) * (b + 1) = (b + 1) + (i + 1) * (b + 1) := by
                ring
              rw [harith]
              exact (List.take_add _ _ _).symm
            rw [List.append_assoc, ← List.map_append, htake]
          · have h5 : idx + 1 + i = idx + i.succ := by omega
            rw [h5]

/-- C1: processing N URLs through `scrape_company_details`, gathered per batch
by the main loop, yields a result set with exactly one record per URL, in
order: no drops and no duplicates per URL, whatever the per-URL attempt
outcomes and the checkpoint-destination availability. -/
theorem resultset_complete (fetch : String → Option ProfileDoc × Option ProfileDoc)
    (busy : Nat → Bool) (b : Nat) (urls : List String) :
    (fetchBatches (fun u => (scrape_company_details u (fetch u).1 (fetch u).2).record)
        busy b 0 [] urls).1 =
      urls.map (fun u => (scrape_company_details u (fetch u).1 (fetch u).2).record) ∧
    (fetchBatches (fun u => (scrape_company_details u (fetch u).1 (fetch u).2).record)
        busy b 0 [] urls).1.length = urls.length := by
  have h := fetchBatches_spec
    (fun u => (scrape_company_details u (fetch u).1 (fetch u).2).record)
    busy b urls.length urls rfl 0 []
  have h1 := congrArg Prod.fst h
  simp only [List.nil_append] at h1
  exact ⟨h1, by rw [h1, List.length_map]⟩

/-- C5: over N URLs with batch size `b + 1`, exactly `ceil(N / (b + 1))`
checkpoint writes are attempted; the `i`-th one targets the fixed
destination and serializes the full accumulated result set after batch `i`,
of cumulative length `min ((i + 1) * (b + 1)) N`. -/
theorem checkpoint_cadence (scr : String → Rec) (busy : Nat → Bool) (b : Nat)
    (urls : List String) :
    (fetchBatches scr busy b 0 [] urls).2 =
      (List.range (ceilDiv urls.length (b + 1))).map
        (fun i => ⟨progressPath, (urls.take ((i + 1) * (b + 1))).map scr, !busy i⟩) ∧
    (fetchBatches scr busy b 0 [] urls).2.length = ceilDiv urls.length (b + 1) ∧
    (fetchBatches scr busy b 0 [] urls).2.map (fun w => w.snapshot.length) =
      (List.range (ceilDiv urls.length (b + 1))).map
        (fun i => min ((i + 1) * (b + 1)) urls.length) := by
  have h := fetchBatches_spec scr busy b urls.length urls rfl 0 []
  have h2 := congrArg Prod.snd h
  simp only [List.nil_append, Nat.zero_add] at h2
  refine ⟨h2, ?_, ?_⟩
  · rw [h2, List.length_map, List.length_range]
  · rw [h2, List.map_map]
    apply List.map_congr_left
    intro i _
    simp [List.length_take]

/-- The results, attempted checkpoint writes and final export of `main`
(yc_scraper.py lines 126-169), with the final dated filename built from
`date`. -/
structure RunOutput where
  results : List Rec
  checkpoints : List CkWrite
  finalWrite : String × List Rec
deriving DecidableEq, Repr

/-- The timestamped final export filename (yc_scraper.py line 167). -/
def finalName (date : String) : String := "yc_scraping_" ++ date ++ ".csv"

/-- yc_scraper.py lines 141-168: batched scraping, interim checkpoints, and
the unconditional final full-dataset export. -/
def mainRun (scr : String → Rec) (busy : Nat → Bool) (b : Nat) (date : String)
    (urls : List String) : RunOutput :=
  ⟨(fetchBatches scr busy b 0 [] urls).1,
   (fetchBatches scr busy b 0 [] urls).2,
   (finalName date, (fetchBatches scr busy b 0 [] urls).1)⟩

/-- C6: a transiently unwritable checkpoint destination only flips that
write's success flag: whatever `busy` says, each batch still attempts
exactly one (unretried) write, the run is not terminated, the accumulated
result set is unchanged, and the final export still serializes the full
result set. -/
theorem checkpoint_failure_tolerated (scr : String → Rec) (busy : Nat → Bool)
    (b : Nat) (date : String) (urls : List String) :
    (mainRun scr busy b date urls).results = urls.map scr ∧
    (mainRun scr busy b date urls).checkpoints.length = ceilDiv urls.length (b + 1) ∧
    (mainRun scr busy b date urls).checkpoints.map (fun w => (w.dest, w.snapshot)) =
      (mainRun scr (fun _ => false) b date urls).checkpoints.map
        (fun w => (w.dest, w.snapshot)) ∧
    (mainRun scr busy b date urls).finalWrite = (finalName date, urls.map scr) := by
  have h := fetchBatches_spec scr busy b urls.length urls rfl 0 []
  have h0 := fetchBatches_spec scr (fun _ => false) b urls.length urls rfl 0 []
  have h1 := congrArg Prod.fst h
  have h2 := congrArg Prod.snd h
  have h02 := congrArg Prod.snd h0
  simp only [List.nil_append] at h1 h2 h02
  unfold mainRun
  dsimp only
  refine ⟨h1, ?_, ?_, ?_⟩
  · rw [h2, List.length_map, List.length_range]
  · rw [h2, h02, List.map_map, List.map_map]
    apply List.map_congr_left
    intro i _
    rfl
  · rw [Prod.mk.injEq]
    exact ⟨rfl, h1⟩

/-!
## Concurrency discipline (yc_scraper.py lines 48-49 and 143)

`asyncio.Semaphore(CONCURRENCY_LIMIT)` and the cooperative event loop are
external to the source; their documented semantics is embedded as a guarded
transition system over per-URL task states.  The `async with semaphore:`
block of `scrape_company_details` encloses the whole `for attempt in
range(2)` loop, which the transition system mirrors: a task acquires its
permit when it leaves Pending (guarded by the permit count), keeps it across
the retry transition, and releases it only when it reaches a terminal
outcome.
-/

/-- Per-URL task state: waiting for a permit, attempting (first or second
attempt, holding a permit), or terminal (success or exhausted retries). -/
inductive TState where
  | pending : TState
  | attempting : Nat → TState
  | terminal : TState
deriving DecidableEq, Repr

def isAttempting : TState → Bool
  | .attempting _ => true
  | _ => false

/-- Number of tasks currently in the Attempting state, i.e. permits held. -/
def countAtt (ts : List TState) : Nat := ts.countP isAttempting

/-- One scheduler step under a semaphore with `K` permits.  `acquire` admits
a pending task only when a permit is free; `retry` is the first-failure
transition inside the `async with` block (no semaphore interaction);
`settle` is any terminal outcome, releasing the permit. -/
inductive SemStep (K : Nat) : List TState → List TState → Prop where
  | acquire (ts : List TState) (i : Nat) (h : i < ts.length)
      (hp : ts.get ⟨i, h⟩ = .pending) (hK : countAtt ts < K) :
      SemStep K ts (ts.set i (.attempting 1))
  | retry (ts : List TState) (i : Nat) (h : i < ts.length)
      (hp : ts.get ⟨i, h⟩ = .attempting 1) :
      SemStep K ts (ts.set i (.attempting 2))
  | settle (ts : List TState) (i : Nat) (h : i < ts.length) (n : Nat)
      (hp : ts.get ⟨i, h⟩ = .attempting n) :
      SemStep K ts (ts.set i .terminal)

/-- States reachable by the engine on `N` URLs with concurrency limit `K`,
starting with every task pending. -/
def SemReach (K N : Nat) (ts : List TState) : Prop :=
  Relation.ReflTransGen (SemStep K) (List.replicate N .pending) ts

lemma countP_set (p : TState → Bool) :
    ∀ (l : List TState) (i : Nat) (h : i < l.length) (v : TState),
    (l.set i v).countP p + (if p (l.get ⟨i, h⟩) then 1 else 0) =
      l.countP p + (if p v then 1 else 0) := by
  intro l
  induction l with
  | nil => intro i h v; exact absurd h (Nat.not_lt_zero i)
  | cons a rest ih =>
    intro i h v
    cases i with
    | zero =>
      simp only [List.set_cons_zero, List.get_eq_getElem, List.getElem_cons_zero,
        List.countP_cons]
      omega
    | succ j =>
      have hj : j < rest.length := by
        simpa [List.length_cons] using h
      have := ih j hj v
      simp only [List.set_cons_succ, List.get_eq_getElem, List.getElem_cons_succ,
        List.countP_cons]
      simp only [List.get_eq_getElem] at this
      omega

lemma countAtt_replicate_pending (N : Nat) :
    countAtt (List.replicate N .pending) = 0 := by
  unfold countAtt
  induction N with
  | zero => rfl
  | succ n ih => simp [List.replicate_succ, List.countP_cons, ih, isAttempting]

lemma SemStep_bound {K : Nat} {ts ts' : List TState}
    (hstep : SemStep K ts ts') (hinv : countAtt ts ≤ K) : countAtt ts' ≤ K := by
  unfold countAtt at hinv ⊢
  cases hstep with
  | acquire i h hp hK =>
    have hc := countP_set isAttempting ts i h (.attempting 1)
    rw [hp] at hc
    simp [isAttempting] at hc
    unfold countAtt at hK
    omega
  | retry i h hp =>
    have hc := countP_set isAttempting ts i h (.attempting 2)
    rw [hp] at hc
    simp [isAttempting] at hc
    omega
  | settle i h n hp =>
    have hc := countP_set isAttempting ts i h .terminal
    rw [hp] at hc
    simp [isAttempting] at hc
    omega

/-- C9: in every reachable state of the bounded fetch engine at most `K`
tasks are in the Attempting state simultaneously; and the retry transition
keeps the permit count unchanged (the task holds its single permit across
its whole attempt sequence, releasing it only on a terminal outcome). -/
theorem semaphore_bound :
    (∀ (K N : Nat) (ts : List TState), SemReach K N ts → countAtt ts ≤ K) ∧
    (∀ (ts : List TState) (i : Nat) (h : i < ts.length),
      ts.get ⟨i, h⟩ = TState.attempting 1 →
      countAtt (ts.set i (TState.attempting 2)) = countAtt ts) := by
  constructor
  · intro K N ts hreach
    unfold SemReach at hreach
    induction hreach with
    | refl => rw [countAtt_replicate_pending]; exact Nat.zero_le K
    | tail hab hbc ih => exact SemStep_bound hbc ih
  · intro ts i h hp
    have hc := countP_set isAttempting ts i h (.attempting 2)
    rw [hp] at hc
    simp [isAttempting] at hc
    unfold countAtt
    omega

/-- C9 witness: with limit 1 and one URL, the state after admitting the task
is reachable and holds the bound, and the retry transition from it preserves
the permit count. -/
theorem semaphore_bound_witness :
    countAtt [TState.attempting 1] ≤ 1 ∧
    countAtt ([TState.attempting 1].set 0 (TState.attempting 2)) =
      countAtt [TState.attempting 1] :=
  ⟨semaphore_bound.1 1 1 [TState.attempting 1]
      (Relation.ReflTransGen.single
        (SemStep.acquire [TState.pending] 0 (by decide) rfl (by decide))),
   semaphore_bound.2 [TState.attempting 1] 0 (by decide) rfl⟩

/-!
## Words are substrings

Every whitespace-split word of a text occurs as a contiguous substring of
the text, so the substring-based blacklist rejection of the code is at least
as strict as token-exact-match rejection.
-/

lemma startsL_self_append (w t : List Char) : startsL w (w ++ t) = true := by
  induction w with
  | nil => rfl
  | cons c rest ih => simp [startsL, ih]

lemma subL_of_startsL {w hay : List Char} (h : startsL w hay = true) :
    subL w hay = true := by
  cases hay with
  | nil =>
    cases w with
    | nil => rfl
    | cons c rest => exact absurd h (by simp [startsL])
  | cons c rest => simp [subL, h]

lemma subL_cons {w rest : List Char} (c : Char) (h : subL w rest = true) :
    subL w (c :: rest) = true := by
  simp [subL, h]

lemma subL_append_left {w l2 : List Char} (l1 : List Char)
    (h : subL w l2 = true) : subL w (l1 ++ l2) = true := by
  induction l1 with
  | nil => simpa using h
  | cons c rest ih => exact subL_cons c ih

lemma words_subL :
    ∀ (l cur w : List Char), w ∈ wordsAux l cur →
    subL w (cur.reverse ++ l) = true := by
  intro l
  induction l with
  | nil =>
    intro cur w hw
    unfold wordsAux at hw
    by_cases hc : cur.isEmpty
    · simp [hc] at hw
    · simp only [hc, if_neg, Bool.false_eq_true, not_false_iff, if_false,
        List.mem_singleton] at hw
      subst hw
      exact subL_of_startsL (startsL_self_append _ _)
  | cons c rest ih =>
    intro cur w hw
    unfold wordsAux at hw
    by_cases hws : c.isWhitespace
    · simp only [hws, if_true] at hw
      by_cases hc : cur.isEmpty
      · simp only [hc, if_true] at hw
        have := ih [] w hw
        simp only [List.reverse_nil, List.nil_append] at this
        have hcur : cur = [] := by
          cases cur with
          | nil => rfl
          | cons a as => exact absurd hc (by simp)
        subst hcur
        simpa using subL_cons c this
      · simp only [hc, Bool.false_eq_true, not_false_iff, if_false,
          List.mem_cons] at hw
        rcases hw with hw | hw
        · subst hw
          exact subL_of_startsL (startsL_self_append _ _)
        · have := ih [] w hw
          simp only [List.reverse_nil, List.nil_append] at this
          exact subL_append_left _ (subL_cons c this)
    · simp only [hws, Bool.false_eq_true, not_false_iff, if_false] at hw
      have := ih (c :: cur) w hw
      simpa [List.append_assoc] using this

lemma mem_pyWords_pyIn {t text : String} (h : t ∈ pyWords text) :
    pyIn t text = true := by
  unfold pyWords at h
  rcases List.mem_map.mp h with ⟨w, hw, hte⟩
  have hsub := words_subL text.data [] w hw
  simp only [List.reverse_nil, List.nil_append] at hsub
  subst hte
  exact hsub

/-- C4: the filter accepts a candidate text only if it splits into 1-3
whitespace words, none of which is a blacklist word (the code even rejects
on substring containment, which is at least as strict); in particular
"Jane Doe" is accepted, "Founders" is rejected, "A B C D" is rejected. -/
theorem nameFilter_necessary_conditions :
    (∀ text : String, nameFilterAccepts text = true →
      0 < (pyWords text).length ∧ (pyWords text).length ≤ 3 ∧
      ∀ t ∈ pyWords text, t ∉ blacklist) ∧
    nameFilterAccepts (pyStrip "Jane Doe") = true ∧
    nameFilterAccepts (pyStrip "Founders") = false ∧
    nameFilterAccepts (pyStrip "A B C D") = false := by
  refine ⟨fun text hacc => ?_, by decide, by decide, by decide⟩
  unfold nameFilterAccepts at hacc
  simp only [Bool.and_eq_true, decide_eq_true_eq, Bool.not_eq_true'] at hacc
  refine ⟨hacc.1.1, hacc.1.2, fun t ht htb => ?_⟩
  exact (List.any_eq_false.mp hacc.2) t htb (mem_pyWords_pyIn ht)

/-- C4 witness: the necessary conditions instantiated at "Jane Doe", whose
acceptance by the code filter is discharged by evaluation. -/
theorem nameFilter_necessary_conditions_witness :
    0 < (pyWords "Jane Doe").length ∧ (pyWords "Jane Doe").length ≤ 3 ∧
    ∀ t ∈ pyWords "Jane Doe", t ∉ blacklist :=
  nameFilter_necessary_conditions.1 "Jane Doe" (by decide)
